import Mathlib

/-!
Verification of the Sudoku UDP-over-TCP framing layer
(`transport/sudoku/uot.go`): the address codec (`encodeAddress`,
`decodeAddress`), the datagram framer (`WriteDatagram`, `ReadDatagram`) and
the stream-to-packet adapter (`UoTPacketConn.ReadFrom` / `WriteTo`).

Go strings and byte slices are both modelled as `List Nat` of byte values;
an `io.Reader` over a reliable stream is modelled as a `List Nat` that read
operations consume from the front, returning the unread remainder.  The Go
standard-library routines the codec calls (`net.SplitHostPort`,
`net.LookupPort`, `net.ParseIP`, `net.IP.To4`, `net.IP.String`,
`net.JoinHostPort`, `io.ReadFull`) are embedded below with the semantics of
their Go sources, as noted on each definition.
-/

/-- A Go string or byte slice: a sequence of byte values. -/
abbrev GoStr := List Nat

/-- The error outcomes of the codec, framer and adapter.  Distinct Go error
values (`fmt.Errorf` messages, `io` sentinel errors) are distinct
constructors; `decodeAddr` models the `decode address: %w` wrapping done by
`ReadDatagram`. -/
inductive UotError where
  | eof
  | splitHostPortError
  | invalidPort
  | domainTooLong
  | unknownAddressType (t : Nat)
  | addressTooLong (n : Nat)
  | payloadTooLarge (n : Nat)
  | invalidAddressLength (n : Nat)
  | invalidPayloadLength (n : Nat)
  | decodeAddr (e : UotError)
  | shortBuffer
  | nilAddress
  deriving DecidableEq

/-- Equality on `Except` outcomes is decidable; used only to evaluate the
model at concrete inputs. -/
instance exceptDecidableEq {e a : Type} [DecidableEq e] [DecidableEq a] :
    DecidableEq (Except e a)
  | .error x, .error y => if h : x = y then .isTrue (by rw [h]) else .isFalse (by simp [h])
  | .error _, .ok _ => .isFalse (by simp)
  | .ok _, .error _ => .isFalse (by simp)
  | .ok x, .ok y => if h : x = y then .isTrue (by rw [h]) else .isFalse (by simp [h])

/-- Models `binary.BigEndian.PutUint16(b, uint16(n))`: the `uint16` cast
truncates to `n % 2^16`, then the two bytes are written big-endian. -/
def be16 (n : Nat) : GoStr := [n % 65536 / 256, n % 256]

/-- Models `binary.BigEndian.Uint16` on a slice whose first two entries are
bytes: `b[0]<<8 | b[1]`. -/
def beUint16 : GoStr → Nat
  | hi :: lo :: _ => hi * 256 + lo
  | _ => 0

/-- Digit-accumulator for decimal formatting; the first argument is fuel
(structural, so that concrete evaluation reduces in the kernel). -/
def natDecimalAux : Nat → Nat → GoStr → GoStr
  | 0, _, acc => acc
  | fuel + 1, n, acc => if n = 0 then acc else natDecimalAux fuel (n / 10) ((n % 10 + 48) :: acc)

/-- Models `fmt.Sprint` / `strconv.Itoa` on a nonnegative integer: its
decimal digits as ASCII bytes. -/
def natDecimal (n : Nat) : GoStr := if n = 0 then [48] else natDecimalAux n n []

/-- Lowercase hex digit byte for a value below 16, as in Go's `hexDigit`
table. -/
def hexDigitChar (d : Nat) : Nat := if d < 10 then 48 + d else 87 + d

/-- Digit-accumulator for hex formatting, fuelled like `natDecimalAux`. -/
def hexDigitsAux : Nat → Nat → GoStr → GoStr
  | 0, _, acc => acc
  | fuel + 1, n, acc => if n = 0 then acc else hexDigitsAux fuel (n / 16) (hexDigitChar (n % 16) :: acc)

/-- Models Go `net`'s `appendHex`: minimal-width lowercase hex, a single 0
digit for zero. -/
def hexDigits (n : Nat) : GoStr := if n = 0 then [48] else hexDigitsAux n n []

/-- Models Go `net`'s `hexString`: two lowercase hex digits per byte (used
only on `net.IP.String`'s fallback branch for lengths other than 4/16). -/
def hexBytes : GoStr → GoStr
  | [] => []
  | b :: rest => hexDigitChar (b / 16 % 16) :: hexDigitChar (b % 16) :: hexBytes rest

/-- Models `strings.IndexByte` save that the miss case is `none` rather
than -1. -/
def indexByte (s : GoStr) (b : Nat) : Option Nat :=
  match s with
  | [] => none
  | c :: rest => if c = b then some 0 else (indexByte rest b).map (· + 1)

/-- Models `strings.LastIndexByte` save that the miss case is `none` rather
than -1. -/
def lastIndexByte (s : GoStr) (b : Nat) : Option Nat :=
  match s with
  | [] => none
  | c :: rest =>
    match lastIndexByte rest b with
    | some i => some (i + 1)
    | none => if c = b then some 0 else none

/-- Models `net.JoinHostPort`: the host is bracketed exactly when it
contains a colon (byte 58). -/
def joinHostPort (host port : GoStr) : GoStr :=
  if (indexByte host 58).isSome then 91 :: host ++ 93 :: 58 :: port
  else host ++ 58 :: port

/-- Models `net.SplitHostPort`.  All the distinct `AddrError` reasons
(missing port, too many colons, missing or unexpected brackets) are
collapsed into the single constructor `splitHostPortError`; the claims under
verification never distinguish them. -/
def splitHostPort (hostPort : GoStr) : Except UotError (GoStr × GoStr) :=
  match lastIndexByte hostPort 58 with
  | none => .error .splitHostPortError
  | some i =>
    if hostPort.head? = some 91 then
      match indexByte hostPort 93 with
      | none => .error .splitHostPortError
      | some e =>
        if e + 1 = hostPort.length then .error .splitHostPortError
        else if e + 1 ≠ i then .error .splitHostPortError
        else if (indexByte (hostPort.drop 1) 91).isSome then .error .splitHostPortError
        else if (indexByte (hostPort.drop (e + 1)) 93).isSome then .error .splitHostPortError
        else .ok ((hostPort.drop 1).take (e - 1), hostPort.drop (i + 1))
    else
      if (indexByte (hostPort.take i) 58).isSome then .error .splitHostPortError
      else if (indexByte hostPort 91).isSome then .error .splitHostPortError
      else if (indexByte hostPort 93).isSome then .error .splitHostPortError
      else .ok (hostPort.take i, hostPort.drop (i + 1))

/-- Models `net.LookupPort("udp", service)` on its numeric path
(`parsePort` followed by the 0..65535 range check).  A non-numeric service
name would be resolved against the system services database, which is
environment state outside the program; such lookups are modelled as
failing.  Go's `parsePort` clamps values from 2^30 upward to 2^32-1; every
clamped value exceeds 65535 and is rejected exactly as the exact value is
here. -/
def lookupPortUdp (service : GoStr) : Except UotError Nat :=
  match
    (match service with
      | 43 :: rest => ((false : Bool), rest)
      | 45 :: rest => ((true : Bool), rest)
      | _ => ((false : Bool), service)) with
  | (neg, digits) =>
    if digits.all (fun c => decide (48 ≤ c ∧ c ≤ 57)) then
      let n := digits.foldl (fun a c => a * 10 + (c - 48)) 0
      if neg = true ∧ 0 < n then .error .invalidPort
      else if 65535 < n then .error .invalidPort
      else .ok n
    else .error .invalidPort

/-- Accumulator loop of Go `net`'s `dtoi`; carries the value so far and the
count of digits consumed. -/
def dtoiAux : GoStr → Nat → Nat → Nat × Nat × Bool
  | [], n, i => (n, i, decide (i ≠ 0))
  | c :: rest, n, i =>
    if 48 ≤ c ∧ c ≤ 57 then
      let m := n * 10 + (c - 48)
      if 0xFFFFFF ≤ m then (0xFFFFFF, i, false) else dtoiAux rest m (i + 1)
    else (n, i, decide (i ≠ 0))

/-- Models Go `net`'s `dtoi`: decimal prefix value, bytes consumed, and
success flag (false when no digits or the value reaches `big` = 0xFFFFFF). -/
def dtoi (s : GoStr) : Nat × Nat × Bool := dtoiAux s 0 0

/-- Accumulator loop of Go `net`'s `xtoi`. -/
def xtoiAux : GoStr → Nat → Nat → Nat × Nat × Bool
  | [], n, i => (n, i, decide (i ≠ 0))
  | c :: rest, n, i =>
    if 48 ≤ c ∧ c ≤ 57 then
      let m := n * 16 + (c - 48)
      if 0xFFFFFF ≤ m then (0, i, false) else xtoiAux rest m (i + 1)
    else if 97 ≤ c ∧ c ≤ 102 then
      let m := n * 16 + (c - 97) + 10
      if 0xFFFFFF ≤ m then (0, i, false) else xtoiAux rest m (i + 1)
    else if 65 ≤ c ∧ c ≤ 70 then
      let m := n * 16 + (c - 65) + 10
      if 0xFFFFFF ≤ m then (0, i, false) else xtoiAux rest m (i + 1)
    else (n, i, decide (i ≠ 0))

/-- Models Go `net`'s `xtoi`: hex prefix value, bytes consumed, success. -/
def xtoi (s : GoStr) : Nat × Nat × Bool := xtoiAux s 0 0

/-- Models the field loop of Go `net`'s `parseIPv4` (Go 1.17+ semantics:
octets 0..255, no leading zeros, exactly four dot-separated fields).  The
first argument counts the fields still to parse; `acc` holds the octets
parsed so far, so `acc = []` is the `i = 0` iteration that expects no
leading dot. -/
def parseIPv4Core : Nat → GoStr → List Nat → Option (List Nat)
  | 0, s, acc => if s = [] then some acc else none
  | k + 1, s, acc =>
    if s = [] then none
    else
      match (if acc = [] then some s
        else if s.head? = some 46 then some (s.drop 1) else none) with
      | none => none
      | some s1 =>
        if (dtoi s1).2.2 = false ∨ 255 < (dtoi s1).1 then none
        else if 1 < (dtoi s1).2.1 ∧ s1.head? = some 48 then none
        else parseIPv4Core k (s1.drop (dtoi s1).2.1) (acc ++ [(dtoi s1).1])

/-- Models Go `net`'s `parseIPv4`, which returns the 16-byte
IPv4-in-IPv6-mapped form `0..0 ff ff a b c d` used by `net.IPv4`. -/
def parseIPv4 (s : GoStr) : Option (List Nat) :=
  (parseIPv4Core 4 s []).map
    (fun p => [0, 0, 0, 0, 0, 0, 0, 0, 0, 0, 255, 255] ++ p)

/-- Models the main loop of Go `net`'s `parseIPv6`.  `acc` is the bytes
filled so far (Go's `ip[0:i]`), `ell` the recorded ellipsis position, and
the result carries the state at loop exit.  The fuel is structural: each
iteration either exits or lengthens `acc` by two, and the loop entry
condition is `acc.length < 16`, so fuel 8 is never exhausted. -/
def parseIPv6Loop : Nat → List Nat → Option Nat → GoStr → Option (List Nat × Option Nat × GoStr)
  | fuel, acc, ell, s =>
    if 16 ≤ acc.length then some (acc, ell, s)
    else
      match fuel with
      | 0 => none
      | fuel' + 1 =>
        if (xtoi s).2.2 = false ∨ 0xFFFF < (xtoi s).1 then none
        else if (s.drop (xtoi s).2.1).head? = some 46 then
          if ell = none ∧ acc.length ≠ 12 then none
          else if 16 < acc.length + 4 then none
          else
            match parseIPv4 s with
            | none => none
            | some ip4 => some (acc ++ ip4.drop 12, ell, [])
        else
          if s.drop (xtoi s).2.1 = [] then
            some (acc ++ [(xtoi s).1 / 256, (xtoi s).1 % 256], ell, [])
          else if (s.drop (xtoi s).2.1).head? ≠ some 58 ∨ (s.drop (xtoi s).2.1).length = 1 then
            none
          else if ((s.drop (xtoi s).2.1).drop 1).head? = some 58 then
            if ell ≠ none then none
            else if (s.drop (xtoi s).2.1).drop 2 = [] then
              some (acc ++ [(xtoi s).1 / 256, (xtoi s).1 % 256],
                some (acc ++ [(xtoi s).1 / 256, (xtoi s).1 % 256]).length, [])
            else
              parseIPv6Loop fuel' (acc ++ [(xtoi s).1 / 256, (xtoi s).1 % 256])
                (some (acc ++ [(xtoi s).1 / 256, (xtoi s).1 % 256]).length)
                ((s.drop (xtoi s).2.1).drop 2)
          else
            parseIPv6Loop fuel' (acc ++ [(xtoi s).1 / 256, (xtoi s).1 % 256]) ell
              ((s.drop (xtoi s).2.1).drop 1)

/-- Models Go `net`'s `parseIPv6` (the same algorithm is used by
`netip.ParseAddr`, which current `net.ParseIP` delegates to): an optional
leading `::`, up to eight 16-bit hex groups, an optional trailing
dotted-quad IPv4 part, and expansion of the ellipsis to the missing zero
groups. -/
def parseIPv6 (s : GoStr) : Option (List Nat) :=
  if s.take 2 = [58, 58] ∧ s.length = 2 then some (List.replicate 16 0)
  else
    match parseIPv6Loop 8 []
        (if s.take 2 = [58, 58] then some 0 else none)
        (if s.take 2 = [58, 58] then s.drop 2 else s) with
    | none => none
    | some (acc, ell, rem) =>
      if rem ≠ [] then none
      else if acc.length < 16 then
        match ell with
        | none => none
        | some e => some (acc.take e ++ List.replicate (16 - acc.length) 0 ++ acc.drop e)
      else
        match ell with
        | some _ => none
        | none => some acc

/-- Models the dispatch scan of `net.ParseIP` (via `netip.ParseAddr`): the
first occurrence of a dot selects IPv4, of a colon IPv6; a percent sign
(zone) or the absence of all three means the string is not an IP literal. -/
def ipClassify : GoStr → Option Nat
  | [] => none
  | c :: rest => if c = 46 ∨ c = 58 ∨ c = 37 then some c else ipClassify rest

/-- Models `net.ParseIP`: `some` of the 16-byte representation of the
address, or `none` when the string is not an IP literal. -/
def parseIP (s : GoStr) : Option (List Nat) :=
  match ipClassify s with
  | some 46 => parseIPv4 s
  | some 58 => parseIPv6 s
  | _ => none

/-- Models `net.IP.To4`: a 4-byte address as is, a 16-byte address when it
carries the IPv4-mapped prefix `0..0 ff ff`, otherwise `none`. -/
def to4 (ip : List Nat) : Option (List Nat) :=
  if ip.length = 4 then some ip
  else if ip.length = 16 ∧ ip.take 12 = [0, 0, 0, 0, 0, 0, 0, 0, 0, 0, 255, 255] then
    some (ip.drop 12)
  else none

/-- The eight 16-bit big-endian groups of a 16-byte IPv6 address. -/
def v6groups : List Nat → List Nat
  | a :: b :: rest => (a * 256 + b) :: v6groups rest
  | _ => []

/-- Length of the run of zero groups starting at the head. -/
def zeroRunLen : List Nat → Nat
  | [] => 0
  | g :: rest => if g = 0 then zeroRunLen rest + 1 else 0

/-- Scan for the leftmost longest run of zero groups: Go's `net.IP.String`
records a run only when strictly longer than the best so far, so the first
of equally long runs wins; this scan computes the same answer. -/
def bestRunAux : List Nat → Nat → Option (Nat × Nat) → Option (Nat × Nat)
  | [], _, best => best
  | g :: rest, i, best =>
    let l := zeroRunLen (g :: rest)
    bestRunAux rest (i + 1)
      (match best with
        | some (_, bl) => if bl < l then some (i, l) else best
        | none => if 0 < l then some (i, l) else none)

/-- The zero-group run that `net.IP.String` elides with a double colon:
the leftmost longest run, provided it spans at least two groups. -/
def bestRun (gs : List Nat) : Option (Nat × Nat) :=
  match bestRunAux gs 0 none with
  | some (i, l) => if 2 ≤ l then some (i, l) else none
  | none => none

/-- Joins hex group strings with colons. -/
def joinColon : List GoStr → GoStr
  | [] => []
  | [x] => x
  | x :: rest => x ++ 58 :: joinColon rest

/-- Models the 16-byte branch of `net.IP.String` (RFC 5952): minimal-width
lowercase hex groups, the leftmost longest run of two or more zero groups
replaced by a double colon. -/
def ipv6String (ip : List Nat) : GoStr :=
  match bestRun (v6groups ip) with
  | some (e0, l) =>
    joinColon (((v6groups ip).take e0).map hexDigits) ++ 58 :: 58 ::
      joinColon (((v6groups ip).drop (e0 + l)).map hexDigits)
  | none => joinColon ((v6groups ip).map hexDigits)

/-- Dotted-decimal form of an IPv4 address. -/
def ipv4Dotted (a b c d : Nat) : GoStr :=
  natDecimal a ++ 46 :: natDecimal b ++ 46 :: natDecimal c ++ 46 :: natDecimal d

/-- Models `net.IP.String`: empty gives the nil marker, `To4` successes
print dotted decimal, 16-byte addresses print RFC 5952 form and any other
length prints a question mark followed by hex bytes. -/
def ipToString (ip : List Nat) : GoStr :=
  if ip.length = 0 then [60, 110, 105, 108, 62]
  else
    match to4 ip with
    | some ip4 =>
      match ip4 with
      | [a, b, c, d] => ipv4Dotted a b c d
      | _ => []
    | none =>
      if ip.length = 16 then ipv6String ip else 63 :: hexBytes ip

/-- The host-classification part of `encodeAddress` in `uot.go`: an IP
literal is written as tag 1 plus four bytes when `To4` applies, otherwise
tag 4 plus sixteen bytes; anything else is a domain, rejected beyond 255
bytes and written as tag 3, a length byte (`byte(len(host))`, exact under
the guard) and the name bytes. -/
def encodeHost (host : GoStr) : Except UotError (List Nat) :=
  match parseIP host with
  | some ip =>
    match to4 ip with
    | some ip4 => .ok (1 :: ip4)
    | none => .ok (4 :: ip)
  | none =>
    if 255 < host.length then .error .domainTooLong
    else .ok (3 :: host.length % 256 :: host)

/-- Models `encodeAddress` in `uot.go`: split the raw address, resolve the
UDP port, encode the host, and append the two big-endian port bytes. -/
def encodeAddress (rawAddr : GoStr) : Except UotError (List Nat) :=
  match splitHostPort rawAddr with
  | .error e => .error e
  | .ok (host, portStr) =>
    match lookupPortUdp portStr with
    | .error e => .error e
    | .ok portInt =>
      match encodeHost host with
      | .error e => .error e
      | .ok hostBuf => .ok (hostBuf ++ be16 portInt)

/-- The presentation form `decodeAddress` gives back for a host that
entered `encodeAddress`: the `net.IP.String` form of the parsed IP literal,
or the domain name itself. -/
def canonicalHost (host : GoStr) : GoStr :=
  match parseIP host with
  | some ip =>
    match to4 ip with
    | some ip4 => ipToString ip4
    | none => ipToString ip
  | none => host

/-- Models `io.ReadFull` over a list-modelled stream: exactly `n` bytes and
the unread remainder, or an end-of-stream error when fewer are available. -/
def readFull (r : GoStr) (n : Nat) : Except UotError (GoStr × GoStr) :=
  if n ≤ r.length then .ok (r.take n, r.drop n) else .error .eof

/-- Models `decodeAddress` in `uot.go`, reading from its own
`bytes.Reader`: a one-byte tag selects IPv4 (4 address bytes), IPv6 (16
address bytes) or domain (length byte then name bytes), each followed by a
two-byte big-endian port; any other tag is the unknown-address-type error.
The success value carries the unread remainder of the reader. -/
def decodeAddress (r : GoStr) : Except UotError (GoStr × GoStr) :=
  match r with
  | [] => .error .eof
  | atyp :: r1 =>
    if atyp = 1 then
      match readFull r1 4 with
      | .error e => .error e
      | .ok (ipBuf, r2) =>
        match readFull r2 2 with
        | .error e => .error e
        | .ok (portBuf, r3) =>
          .ok (joinHostPort (ipToString ipBuf) (natDecimal (beUint16 portBuf)), r3)
    else if atyp = 4 then
      match readFull r1 16 with
      | .error e => .error e
      | .ok (ipBuf, r2) =>
        match readFull r2 2 with
        | .error e => .error e
        | .ok (portBuf, r3) =>
          .ok (joinHostPort (ipToString ipBuf) (natDecimal (beUint16 portBuf)), r3)
    else if atyp = 3 then
      match readFull r1 1 with
      | .error e => .error e
      | .ok (lenBuf, r2) =>
        match readFull r2 (lenBuf.headD 0) with
        | .error e => .error e
        | .ok (hostBuf, r3) =>
          match readFull r3 2 with
          | .error e => .error e
          | .ok (portBuf, r4) =>
            .ok (joinHostPort hostBuf (natDecimal (beUint16 portBuf)), r4)
    else .error (.unknownAddressType atyp)

/-- The `maxUoTPayload` constant of `uot.go`: 64 KiB. -/
def maxUoTPayload : Nat := 64 * 1024

/-- Models `WriteDatagram` in `uot.go`: encode the address, check the
encoded-address and payload lengths against `maxUoTPayload`, then emit the
4-byte header (two big-endian `uint16` length fields, with their casts'
truncation) followed by address bytes and payload bytes.  The success value
is the byte sequence written to the stream. -/
def writeDatagram (addr : GoStr) (payload : List Nat) : Except UotError (List Nat) :=
  match encodeAddress addr with
  | .error e => .error e
  | .ok addrBuf =>
    if addrBuf.length = 0 ∨ maxUoTPayload < addrBuf.length then
      .error (.addressTooLong addrBuf.length)
    else if maxUoTPayload < payload.length then
      .error (.payloadTooLarge payload.length)
    else .ok (be16 addrBuf.length ++ be16 payload.length ++ addrBuf ++ payload)

/-- Models `ReadDatagram` in `uot.go`: read the 4-byte header, validate the
two length fields (`addrLen <= 0` is `= 0` for a value decoded from
`uint16`, and likewise `payloadLen < 0` is vacuous), read and decode the
address bytes, then read the payload.  The three `io.ReadFull` calls are
written out as an availability test plus `take`/`drop` at the current
position.  Errors carry the unread remainder of the stream, so the position
at which a failed call leaves the stream is part of the model; underruns
inside `io.ReadFull` consume whatever is available, leaving nothing. -/
def readDatagram (r : GoStr) : Except (UotError × GoStr) (GoStr × GoStr × GoStr) :=
  if 4 ≤ r.length then
    if beUint16 ((r.take 4).take 2) = 0 ∨ maxUoTPayload < beUint16 ((r.take 4).take 2) then
      .error (.invalidAddressLength (beUint16 ((r.take 4).take 2)), r.drop 4)
    else if maxUoTPayload < beUint16 ((r.take 4).drop 2) then
      .error (.invalidPayloadLength (beUint16 ((r.take 4).drop 2)), r.drop 4)
    else if beUint16 ((r.take 4).take 2) ≤ (r.drop 4).length then
      match decodeAddress ((r.drop 4).take (beUint16 ((r.take 4).take 2))) with
      | .error e => .error (.decodeAddr e, (r.drop 4).drop (beUint16 ((r.take 4).take 2)))
      | .ok (addr, _) =>
        if beUint16 ((r.take 4).drop 2) ≤ ((r.drop 4).drop (beUint16 ((r.take 4).take 2))).length then
          .ok (addr,
            ((r.drop 4).drop (beUint16 ((r.take 4).take 2))).take (beUint16 ((r.take 4).drop 2)),
            ((r.drop 4).drop (beUint16 ((r.take 4).take 2))).drop (beUint16 ((r.take 4).drop 2)))
        else .error (.eof, [])
    else .error (.eof, [])
  else .error (.eof, [])


/-- Models Go's `copy(dst, src)` on byte slices: the first
`min (len src) (len dst)` entries of `dst` are overwritten from `src`. -/
def copyList (dst src : List Nat) : List Nat :=
  src.take (min src.length dst.length) ++ dst.drop (min src.length dst.length)

/-- Outcome of `UoTPacketConn.ReadFrom`: byte count, resolved address and
unread stream remainder on success, or an error.  Both outcomes carry the
caller's buffer as left by the call (the code writes into it only on the
success path, via `copy`). -/
inductive ReadFromResult (α : Type) where
  | ok (n : Nat) (addr : α) (buf : List Nat) (rest : GoStr)
  | err (e : UotError) (buf : List Nat) (rest : GoStr)
  deriving DecidableEq

/-- Models `UoTPacketConn.ReadFrom` in `uot.go`.  `net.ResolveUDPAddr` asks
the operating system's resolver, so it is modelled as an oracle parameter
`resolve`; a `none` answer is the resolution failure that `uot.go` logs
before continuing the loop with the next frame.  Each iteration consumes at
least the 4-byte frame header from the stream, which bounds the loop. -/
def readFrom {α : Type} (resolve : GoStr → Option α) (p : GoStr) (s : GoStr) :
    ReadFromResult α :=
  match h : readDatagram s with
  | .error (e, r) => .err e p r
  | .ok (addrStr, payload, rest) =>
    if p.length < payload.length then .err .shortBuffer p rest
    else
      match resolve addrStr with
      | none => readFrom resolve p rest
      | some a => .ok payload.length a (copyList p payload) rest
termination_by s.length
decreasing_by
  simp only [readDatagram] at h
  split at h
  case isFalse => exact absurd h (by simp)
  case isTrue h4 =>
    split at h
    · exact absurd h (by simp)
    split at h
    · exact absurd h (by simp)
    split at h
    case isFalse => exact absurd h (by simp)
    case isTrue hA =>
      split at h
      · exact absurd h (by simp)
      split at h
      case isFalse => exact absurd h (by simp)
      case isTrue hP =>
        simp only [Except.ok.injEq, Prod.mk.injEq] at h
        obtain ⟨-, -, hr⟩ := h
        rw [← hr]
        simp only [List.length_drop]
        omega

/-- Models `UoTPacketConn.WriteTo` in `uot.go`: a missing destination fails
with the nil-address error before anything is written; otherwise the frame
is written through `WriteDatagram` and, on success, the count returned is
the payload length.  The second component is the byte sequence written to
the stream. -/
def writeTo (p : List Nat) (addr : Option GoStr) : Except UotError Nat × List Nat :=
  match addr with
  | none => (.error .nilAddress, [])
  | some a =>
    match writeDatagram a p with
    | .error e => (.error e, [])
    | .ok bytes => (.ok p.length, bytes)

/-! Helper lemmas shared by the claim theorems. -/

theorem length_be16 (n : Nat) : (be16 n).length = 2 := rfl

theorem take_of_append (a b : GoStr) (n : Nat) (h : a.length = n) : (a ++ b).take n = a := by
  subst h
  exact List.take_left a b

theorem drop_of_append (a b : GoStr) (n : Nat) (h : a.length = n) : (a ++ b).drop n = b := by
  subst h
  exact List.drop_left a b

theorem beUint16_be16 (n : Nat) (h : n < 65536) : beUint16 (be16 n) = n := by
  simp only [be16, beUint16]
  omega

/-- Claim C7: a frame header whose 16-bit address-length field is zero makes
`ReadDatagram` fail with the invalid-address-length error, and it consumes
exactly the four header bytes, leaving the stream right after them: no
further byte of the frame is read.  The payload-length bytes `b2 b3` and the
remaining stream are arbitrary. -/
theorem readDatagram_zero_addr_len (b2 b3 : Nat) (rest : GoStr) :
    readDatagram (0 :: 0 :: b2 :: b3 :: rest) = .error (.invalidAddressLength 0, rest) := by
  have h4 : 4 ≤ (0 :: 0 :: b2 :: b3 :: rest).length := by
    simp only [List.length_cons]
    omega
  simp [readDatagram, h4, beUint16]

/-- Evaluation of `ReadDatagram` on a stream opening with two well-formed
16-bit header fields: the read proceeds to the address bytes, the wrapped
address decode, and the payload read, at the positions the header declares. -/
theorem readDatagram_header (aL pL : Nat) (body : GoStr)
    (hA0 : aL ≠ 0) (hA : aL ≤ 65535) (hP : pL ≤ 65535) :
    readDatagram (be16 aL ++ be16 pL ++ body) =
      (if aL ≤ body.length then
        match decodeAddress (body.take aL) with
        | .error e => .error (.decodeAddr e, body.drop aL)
        | .ok (addr, _) =>
          if pL ≤ (body.drop aL).length then
            .ok (addr, (body.drop aL).take pL, (body.drop aL).drop pL)
          else .error (.eof, [])
      else .error (.eof, [])) := by
  have hs : be16 aL ++ be16 pL ++ body = (be16 aL ++ be16 pL) ++ body := by
    simp [List.append_assoc]
  have hdr4 : ((be16 aL ++ be16 pL) : GoStr).length = 4 := by simp [be16]
  have htake : (((be16 aL ++ be16 pL) ++ body) : GoStr).take 4 = be16 aL ++ be16 pL :=
    take_of_append _ _ _ hdr4
  have hdrop : (((be16 aL ++ be16 pL) ++ body) : GoStr).drop 4 = body :=
    drop_of_append _ _ _ hdr4
  have ht2 : ((be16 aL ++ be16 pL) : GoStr).take 2 = be16 aL :=
    take_of_append _ _ _ (length_be16 aL)
  have hd2 : ((be16 aL ++ be16 pL) : GoStr).drop 2 = be16 pL :=
    drop_of_append _ _ _ (length_be16 aL)
  have h4 : 4 ≤ (((be16 aL ++ be16 pL) ++ body) : GoStr).length := by
    simp [List.length_append, length_be16]
    omega
  rw [hs]
  simp only [readDatagram, htake, hdrop, ht2, hd2,
    beUint16_be16 aL (by omega), beUint16_be16 pL (by omega), if_pos h4, maxUoTPayload]
  rw [if_neg (by omega), if_neg (by omega)]

/-- Claim C2: `WriteDatagram` on address 93.184.216.34:443 (the byte list is
that string) with payload 1 2 3 writes exactly the fourteen bytes
00 07 00 03 01 5D B8 D8 22 01 BB 01 02 03, and `ReadDatagram` on exactly
those bytes returns the same address string and payload, consuming the
whole stream without error. -/
theorem uot_example_frame :
    writeDatagram [57, 51, 46, 49, 56, 52, 46, 50, 49, 54, 46, 51, 52, 58, 52, 52, 51] [1, 2, 3] =
      .ok [0, 7, 0, 3, 1, 93, 184, 216, 34, 1, 187, 1, 2, 3] ∧
    readDatagram [0, 7, 0, 3, 1, 93, 184, 216, 34, 1, 187, 1, 2, 3] =
      .ok ([57, 51, 46, 49, 56, 52, 46, 50, 49, 54, 46, 51, 52, 58, 52, 52, 51], [1, 2, 3], []) :=
  ⟨rfl, rfl⟩

/-- Claim C5: an address byte stream whose first byte is not 1, 3 or 4 makes
`decodeAddress` fail with the unknown-address-type error — the result is the
same for every continuation `t`, so nothing past the tag byte is read, and
the function is total, so there is no panic or loop — and `ReadDatagram` on
a frame carrying such an address fails with that error wrapped in the
address-decode error, positioned right after the address bytes. -/
theorem decodeAddress_unknown_tag (b : Nat) (t rest : GoStr) (pLen : Nat)
    (hb1 : b ≠ 1) (hb3 : b ≠ 3) (hb4 : b ≠ 4) (ht : t.length ≤ 65534) (hp : pLen ≤ 65535) :
    decodeAddress (b :: t) = .error (.unknownAddressType b) ∧
    readDatagram (be16 (t.length + 1) ++ be16 pLen ++ (b :: t) ++ rest) =
      .error (.decodeAddr (.unknownAddressType b), rest) := by
  have hdec : decodeAddress (b :: t) = .error (.unknownAddressType b) := by
    simp [decodeAddress, hb1, hb3, hb4]
  refine ⟨hdec, ?_⟩
  have hlen : ((b :: t) : GoStr).length = t.length + 1 := by simp
  have hsplit : be16 (t.length + 1) ++ be16 pLen ++ (b :: t) ++ rest =
      be16 (t.length + 1) ++ be16 pLen ++ ((b :: t) ++ rest) := by
    simp [List.append_assoc]
  rw [hsplit, readDatagram_header _ _ _ (by omega) (by omega) hp]
  rw [if_pos (by simp only [List.length_append, hlen]; omega),
    take_of_append _ _ _ hlen, drop_of_append _ _ _ hlen, hdec]

/-- Witness for C5 at tag byte 7 with an empty tail: the decode error and
the wrapped frame error on the concrete five-byte frame 00 01 00 00 07. -/
theorem decodeAddress_unknown_tag_witness :
    decodeAddress [7] = .error (.unknownAddressType 7) ∧
    readDatagram [0, 1, 0, 0, 7] = .error (.decodeAddr (.unknownAddressType 7), []) :=
  decodeAddress_unknown_tag 7 [] [] 0 (by decide) (by decide) (by decide) (by decide) (by decide)

/-- Claim C8: whenever `WriteTo` with a present destination address
succeeds, the count it returns is the payload length — not the larger total
of header, encoded address and payload that went to the stream — and
`WriteTo` with a nil destination fails with the nil-address error while
writing nothing. -/
theorem writeTo_returns_payload_length (p : List Nat) (addr : GoStr) (n : Nat) (out : List Nat)
    (h : writeTo p (some addr) = (.ok n, out)) :
    n = p.length ∧ writeTo p none = (.error .nilAddress, []) := by
  refine ⟨?_, rfl⟩
  revert h
  simp only [writeTo]
  rcases writeDatagram addr p with e | bytes
  · intro h
    exact absurd (congrArg Prod.fst h) (by simp)
  · intro h
    have hfst := congrArg Prod.fst h
    simp only at hfst
    exact (Except.ok.inj hfst).symm

/-- Witness for C8: a three-byte payload to the address a:1 returns count 3
although twelve bytes went to the stream, and the nil-address case. -/
theorem writeTo_returns_payload_length_witness :
    (3 : Nat) = [1, 2, 3].length ∧ writeTo [1, 2, 3] none = (.error .nilAddress, []) :=
  writeTo_returns_payload_length [1, 2, 3] [97, 58, 49] 3
    [0, 5, 0, 3, 3, 1, 97, 0, 1, 1, 2, 3] rfl

/-- Claim C4: whenever the next frame on the stream decodes to a payload
strictly larger than the caller's buffer, `ReadFrom` stops with the
short-buffer error: the buffer comes back unchanged (the `copy` into it is
never reached) and the loop does not continue — the result is the error,
whatever frames follow, with the stream advanced past the oversized frame. -/
theorem readFrom_short_buffer {α : Type} (resolve : GoStr → Option α)
    (p s a pl rest : GoStr)
    (hread : readDatagram s = .ok (a, pl, rest)) (hbig : p.length < pl.length) :
    readFrom resolve p s = .err .shortBuffer p rest := by
  rw [readFrom, hread]
  dsimp only
  rw [if_pos hbig]

/-- Witness for C4 at the sizes named by the claim: a 100-byte payload
against a 50-byte buffer. -/
theorem readFrom_short_buffer_witness :
    readFrom (fun _ => (none : Option Nat)) (List.replicate 50 0)
      ([0, 5, 0, 100] ++ [3, 1, 97, 0, 1] ++ List.replicate 100 7) =
      .err .shortBuffer (List.replicate 50 0) [] :=
  readFrom_short_buffer (fun _ => (none : Option Nat)) (List.replicate 50 0)
    ([0, 5, 0, 100] ++ [3, 1, 97, 0, 1] ++ List.replicate 100 7)
    [97, 58, 49] (List.replicate 100 7) [] rfl (by decide)

/-- Claim C3: on a stream holding a well-formed frame whose address the
resolver rejects followed by a well-formed frame whose address it accepts,
`ReadFrom` discards the first frame without returning an error and returns
the second frame's payload length, its resolved source address, and its
payload copied into the buffer.  The resolver is the oracle modelling
`net.ResolveUDPAddr`; the log line emitted on the discarded frame is
outside the model.  Both payloads must fit the caller's buffer, since the
short-buffer check precedes resolution on each iteration. -/
theorem readFrom_skips_unresolvable {α : Type} (resolve : GoStr → Option α) (p s : GoStr)
    (a1 p1 rest1 a2 p2 rest2 : GoStr) (addr2 : α)
    (h1 : readDatagram s = .ok (a1, p1, rest1)) (hres1 : resolve a1 = none)
    (hfit1 : p1.length ≤ p.length)
    (h2 : readDatagram rest1 = .ok (a2, p2, rest2)) (hres2 : resolve a2 = some addr2)
    (hfit2 : p2.length ≤ p.length) :
    readFrom resolve p s = .ok p2.length addr2 (copyList p p2) rest2 := by
  rw [readFrom, h1]
  dsimp only
  rw [if_neg (Nat.not_lt.mpr hfit1), hres1]
  rw [readFrom, h2]
  dsimp only
  rw [if_neg (Nat.not_lt.mpr hfit2), hres2]

/-- Witness for C3: frame one carries address a:1 and payload 9, which the
concrete resolver rejects; frame two carries address b:2 and an empty
payload, which it resolves to 42; `ReadFrom` returns frame two's data. -/
theorem readFrom_skips_unresolvable_witness :
    readFrom (fun a => if a = [98, 58, 50] then some 42 else (none : Option Nat)) [0, 0]
      [0, 5, 0, 1, 3, 1, 97, 0, 1, 9, 0, 5, 0, 0, 3, 1, 98, 0, 2] =
      .ok 0 42 (copyList [0, 0] []) [] :=
  readFrom_skips_unresolvable _ [0, 0]
    [0, 5, 0, 1, 3, 1, 97, 0, 1, 9, 0, 5, 0, 0, 3, 1, 98, 0, 2]
    [97, 58, 49] [9] [0, 5, 0, 0, 3, 1, 98, 0, 2] [98, 58, 50] [] [] 42
    rfl rfl (by decide) rfl rfl (by decide)

/-- Claim C9: the buffer-size check comes before address resolution in
`ReadFrom`: a frame whose payload exceeds the caller's buffer produces the
short-buffer error even when its address is one the resolver would reject,
instead of being skipped under the discard-and-continue policy. -/
theorem readFrom_short_buffer_precedes_resolution {α : Type} (resolve : GoStr → Option α)
    (p s a pl rest : GoStr)
    (hread : readDatagram s = .ok (a, pl, rest)) (hbig : p.length < pl.length)
    (hres : resolve a = none) :
    readFrom resolve p s = .err .shortBuffer p rest := by
  rw [readFrom, hread]
  dsimp only
  rw [if_pos hbig]

/-- Witness for C9: a frame with a two-byte payload against an empty buffer
and a resolver that rejects every address still yields the short-buffer
error, not a skip. -/
theorem readFrom_short_buffer_precedes_resolution_witness :
    readFrom (fun _ => (none : Option Nat)) []
      [0, 5, 0, 2, 3, 1, 99, 0, 3, 5, 5] = .err .shortBuffer [] [] :=
  readFrom_short_buffer_precedes_resolution (fun _ => (none : Option Nat)) []
    [0, 5, 0, 2, 3, 1, 99, 0, 3, 5, 5] [99, 58, 51] [5, 5] [] rfl (by decide) rfl

/-- Bound on a 16-bit field decoded from actual bytes. -/
theorem beUint16_le (l : GoStr) (h : ∀ b ∈ l, b < 256) : beUint16 l ≤ 65535 := by
  match l with
  | [] => simp [beUint16]
  | [a] => simp [beUint16]
  | a :: b :: t =>
    have ha := h a (by simp)
    have hb := h b (by simp)
    simp only [beUint16]
    omega

/-- Claim C10: on any byte stream (entries below 256), `ReadDatagram` can
never take the invalid-payload-length branch — the field is decoded from 16
bits, so it is at most 65535, within the 0..65536 bound — and the only
length-check failure reachable on the decode path is an address-length
field equal to zero. -/
theorem readDatagram_payload_check_unreachable (s : GoStr) (n : Nat) (pos : GoStr)
    (hbytes : ∀ b ∈ s, b < 256) :
    readDatagram s ≠ .error (.invalidPayloadLength n, pos) ∧
    (readDatagram s = .error (.invalidAddressLength n, pos) → n = 0) := by
  have hA : beUint16 ((s.take 4).take 2) ≤ 65535 :=
    beUint16_le _ (fun b hb => hbytes b (List.take_subset _ _ (List.take_subset _ _ hb)))
  have hP : beUint16 ((s.take 4).drop 2) ≤ 65535 :=
    beUint16_le _ (fun b hb => hbytes b (List.take_subset _ _ (List.drop_subset _ _ hb)))
  simp only [readDatagram, maxUoTPayload]
  constructor
  · split
    case isFalse => simp
    case isTrue h4 =>
      split
      case isTrue hg => simp
      case isFalse hg =>
        split
        case isTrue hg2 => exact absurd hg2 (by omega)
        case isFalse hg2 =>
          split
          case isFalse => simp
          case isTrue hA2 =>
            split
            · simp
            · split
              case isTrue => simp
              case isFalse => simp
  · split
    case isFalse => intro h; simp at h
    case isTrue h4 =>
      split
      case isTrue hg =>
        intro h
        simp only [Except.error.injEq, Prod.mk.injEq, UotError.invalidAddressLength.injEq] at h
        omega
      case isFalse hg =>
        split
        case isTrue hg2 => exact absurd hg2 (by omega)
        case isFalse hg2 =>
          split
          case isFalse => intro h; simp at h
          case isTrue hA2 =>
            split
            · intro h; simp at h
            · split
              case isTrue => intro h; simp at h
              case isFalse => intro h; simp at h

/-- Witness for C10 at the empty stream and field value 5. -/
theorem readDatagram_payload_check_unreachable_witness :
    readDatagram [] ≠ .error (.invalidPayloadLength 5, []) ∧
    (readDatagram [] = .error (.invalidAddressLength 5, []) → 5 = 0) :=
  readDatagram_payload_check_unreachable [] 5 [] (by simp)

/-- Each successful `parseIPv4Core` call appends exactly one octet per
remaining field. -/
theorem parseIPv4Core_length : ∀ (k : Nat) (s : GoStr) (acc out : List Nat),
    parseIPv4Core k s acc = some out → out.length = acc.length + k := by
  intro k
  induction k with
  | zero =>
    intro s acc out h
    simp only [parseIPv4Core] at h
    split at h
    · simp only [Option.some.injEq] at h
      rw [← h]
      omega
    · exact absurd h (by simp)
  | succ k ih =>
    intro s acc out h
    simp only [parseIPv4Core] at h
    split at h
    · exact absurd h (by simp)
    · split at h
      · exact absurd h (by simp)
      · split at h
        · exact absurd h (by simp)
        · split at h
          · exact absurd h (by simp)
          · have hrec := ih _ _ _ h
            simp only [List.length_append, List.length_singleton] at hrec
            omega

/-- A parsed IPv4 literal is returned in the 16-byte mapped form. -/
theorem parseIPv4_length (s : GoStr) (ip : List Nat) (h : parseIPv4 s = some ip) :
    ip.length = 16 := by
  rcases hc : parseIPv4Core 4 s [] with _ | out
  · rw [parseIPv4, hc] at h
    exact absurd h (by simp)
  · rw [parseIPv4, hc] at h
    simp only [Option.map_some', Option.some.injEq] at h
    have hl := parseIPv4Core_length 4 s [] out hc
    rw [← h]
    simp only [List.length_append, List.length_nil] at hl
    simp [List.length_append]
    omega

/-- Invariant of the IPv6 group loop: the filled prefix keeps even length,
never exceeds 16 bytes, and a recorded ellipsis position stays within it. -/
theorem parseIPv6Loop_inv : ∀ (fuel : Nat) (s : GoStr) (acc : List Nat) (ell : Option Nat)
    (acc2 : List Nat) (ell2 : Option Nat) (rem : GoStr),
    2 ∣ acc.length → acc.length ≤ 16 → (∀ e, ell = some e → e ≤ acc.length) →
    parseIPv6Loop fuel acc ell s = some (acc2, ell2, rem) →
    2 ∣ acc2.length ∧ acc2.length ≤ 16 ∧ ∀ e, ell2 = some e → e ≤ acc2.length := by
  intro fuel
  induction fuel with
  | zero =>
    intro s acc ell acc2 ell2 rem hdvd hle hell h
    simp only [parseIPv6Loop] at h
    split at h
    · simp only [Option.some.injEq, Prod.mk.injEq] at h
      obtain ⟨h1, h2, h3⟩ := h
      subst h1
      subst h2
      exact ⟨hdvd, hle, hell⟩
    · exact absurd h (by simp)
  | succ fuel ih =>
    intro s acc ell acc2 ell2 rem hdvd hle hell h
    simp only [parseIPv6Loop] at h
    split at h
    · simp only [Option.some.injEq, Prod.mk.injEq] at h
      obtain ⟨h1, h2, h3⟩ := h
      subst h1
      subst h2
      exact ⟨hdvd, hle, hell⟩
    case isFalse hlt =>
      split at h
      · exact absurd h (by simp)
      · split at h
        case isTrue hdot =>
          split at h
          · exact absurd h (by simp)
          case isFalse hpos =>
            split at h
            case isTrue hroom => exact absurd h (by simp)
            case isFalse hroom =>
              split at h
              · exact absurd h (by simp)
              case _ ip4 hip4 =>
                simp only [Option.some.injEq, Prod.mk.injEq] at h
                obtain ⟨h1, h2, h3⟩ := h
                subst h1
                subst h2
                have hl4 : ip4.length = 16 := parseIPv4_length _ _ hip4
                refine ⟨?_, ?_, ?_⟩
                · simp only [List.length_append, List.length_drop, hl4]
                  omega
                · simp only [List.length_append, List.length_drop, hl4]
                  omega
                · intro e he
                  have := hell e he
                  simp only [List.length_append, List.length_cons, List.length_nil]
                  omega
        case isFalse hdot =>
          split at h
          case isTrue hs1 =>
            simp only [Option.some.injEq, Prod.mk.injEq] at h
            obtain ⟨h1, h2, h3⟩ := h
            subst h1
            subst h2
            refine ⟨?_, ?_, ?_⟩
            · simp only [List.length_append, List.length_cons, List.length_nil]
              omega
            · simp only [List.length_append, List.length_cons, List.length_nil]
              omega
            · intro e he
              have := hell e he
              simp only [List.length_append, List.length_cons, List.length_nil]
              omega
          case isFalse hs1 =>
            split at h
            case isTrue => exact absurd h (by simp)
            case isFalse hcolon =>
              split at h
              case isTrue hdc =>
                split at h
                case isTrue => exact absurd h (by simp)
                case isFalse hellnone =>
                  split at h
                  case isTrue hs3 =>
                    simp only [Option.some.injEq, Prod.mk.injEq] at h
                    obtain ⟨h1, h2, h3⟩ := h
                    subst h1
                    subst h2
                    refine ⟨?_, ?_, ?_⟩
                    · simp only [List.length_append, List.length_cons, List.length_nil]
                      omega
                    · simp only [List.length_append, List.length_cons, List.length_nil]
                      omega
                    · intro e he
                      simp only [Option.some.injEq] at he
                      omega
                  case isFalse hs3 =>
                    refine ih _ _ _ _ _ _ ?_ ?_ ?_ h
                    · simp only [List.length_append, List.length_cons, List.length_nil]
                      omega
                    · simp only [List.length_append, List.length_cons, List.length_nil]
                      omega
                    · intro e he
                      simp only [Option.some.injEq] at he
                      omega
              case isFalse hdc =>
                refine ih _ _ _ _ _ _ ?_ ?_ ?_ h
                · simp only [List.length_append, List.length_cons, List.length_nil]
                  omega
                · simp only [List.length_append, List.length_cons, List.length_nil]
                  omega
                · intro e he
                  have := hell e he
                  simp only [List.length_append, List.length_cons, List.length_nil]
                  omega

/-- A parsed IPv6 literal is 16 bytes long. -/
theorem parseIPv6_length (s : GoStr) (ip : List Nat) (h : parseIPv6 s = some ip) :
    ip.length = 16 := by
  simp only [parseIPv6] at h
  split at h
  · simp only [Option.some.injEq] at h
    rw [← h]
    simp
  · split at h
    · exact absurd h (by simp)
    case _ acc ell rem heq =>
      have hinv := parseIPv6Loop_inv 8 _ [] _ acc ell rem (by simp) (by simp)
        (fun e he => by
          split at he
          · simp only [Option.some.injEq] at he
            omega
          · exact absurd he (by simp)) heq
      obtain ⟨hdvd, hle, hell⟩ := hinv
      split at h
      · exact absurd h (by simp)
      case isFalse hrem =>
        split at h
        case isTrue hlen =>
          split at h
          · exact absurd h (by simp)
          · rename_i x e
            have he := hell e rfl
            simp only [Option.some.injEq] at h
            rw [← h]
            simp only [List.length_append, List.length_take, List.length_replicate,
              List.length_drop]
            omega
        case isFalse hlen =>
          split at h
          · exact absurd h (by simp)
          · simp only [Option.some.injEq] at h
            rw [← h]
            omega

/-- `net.ParseIP` always returns the 16-byte representation. -/
theorem parseIP_length (s : GoStr) (ip : List Nat) (h : parseIP s = some ip) :
    ip.length = 16 := by
  simp only [parseIP] at h
  split at h
  · exact parseIPv4_length _ _ h
  · exact parseIPv6_length _ _ h
  · exact absurd h (by simp)

/-- `net.IP.To4` successes are 4 bytes long. -/
theorem to4_length (ip ip4 : List Nat) (h : to4 ip = some ip4) : ip4.length = 4 := by
  simp only [to4] at h
  split at h
  case isTrue h4 =>
    simp only [Option.some.injEq] at h
    rw [← h]
    exact h4
  case isFalse h4 =>
    split at h
    case isTrue h16 =>
      simp only [Option.some.injEq] at h
      rw [← h]
      simp only [List.length_drop]
      omega
    case isFalse h16 => exact absurd h (by simp)

/-- Reading exactly the length of a prefix returns that prefix and the
remainder. -/
theorem readFull_of_append (a b : GoStr) (n : Nat) (h : a.length = n) :
    readFull (a ++ b) n = .ok (a, b) := by
  rw [readFull, if_pos (by simp [List.length_append]; omega),
    take_of_append _ _ _ h, drop_of_append _ _ _ h]

/-- Reading a whole buffer returns it with nothing left. -/
theorem readFull_all (a : GoStr) (n : Nat) (h : a.length = n) :
    readFull a n = .ok (a, []) := by
  subst h
  rw [readFull, if_pos (le_refl _), List.take_length, List.drop_length]

/-- Address-codec round trip: decoding an encoded host (with the two port
bytes appended) consumes everything and presents the canonical host joined
with the decimal port; the encoded host is between 1 and 257 bytes. -/
theorem decodeAddress_encodeHost (host : GoStr) (port : Nat) (hostBuf : List Nat)
    (h : encodeHost host = .ok hostBuf) (hport : port < 65536) :
    decodeAddress (hostBuf ++ be16 port) =
      .ok (joinHostPort (canonicalHost host) (natDecimal port), []) ∧
    hostBuf.length ≤ 257 ∧ 1 ≤ hostBuf.length := by
  simp only [encodeHost] at h
  split at h
  case _ ip hip =>
    split at h
    case _ ip4 hto4 =>
      simp only [Except.ok.injEq] at h
      subst h
      have h4 : ip4.length = 4 := to4_length _ _ hto4
      refine ⟨?_, by simp [h4], by simp⟩
      show decodeAddress ((1 : Nat) :: (ip4 ++ be16 port)) = _
      simp only [decodeAddress]
      rw [if_pos trivial, readFull_of_append _ _ _ h4]
      dsimp only
      rw [readFull_all _ _ (length_be16 port)]
      dsimp only
      rw [beUint16_be16 _ hport]
      simp only [canonicalHost, hip, hto4]
    case _ hto4 =>
      simp only [Except.ok.injEq] at h
      subst h
      have h16 : ip.length = 16 := parseIP_length _ _ hip
      refine ⟨?_, by simp [h16], by simp⟩
      show decodeAddress ((4 : Nat) :: (ip ++ be16 port)) = _
      simp only [decodeAddress]
      rw [if_pos trivial, readFull_of_append _ _ _ h16]
      dsimp only
      rw [readFull_all _ _ (length_be16 port)]
      dsimp only
      rw [beUint16_be16 _ hport]
      simp only [canonicalHost, hip, hto4]
      rw [if_neg (by decide : ¬(4 : Nat) = 1)]
  case _ hip =>
    split at h
    case isTrue => exact absurd h (by simp)
    case isFalse hlong =>
      simp only [Except.ok.injEq] at h
      subst h
      have hmod : host.length % 256 = host.length := Nat.mod_eq_of_lt (by omega)
      refine ⟨?_, by simp; omega, by simp⟩
      show decodeAddress ((3 : Nat) :: (host.length % 256 :: host ++ be16 port)) = _
      simp only [decodeAddress]
      have h1 : readFull (host.length % 256 :: host ++ be16 port) 1 =
          .ok ([host.length % 256], host ++ be16 port) :=
        readFull_of_append [host.length % 256] (host ++ be16 port) 1 rfl
      rw [if_pos trivial, h1]
      dsimp only
      rw [List.headD_cons, hmod, readFull_of_append _ _ _ rfl]
      dsimp only
      rw [readFull_all _ _ (length_be16 port)]
      dsimp only
      rw [beUint16_be16 _ hport]
      simp only [canonicalHost, hip]
      rw [if_neg (by decide : ¬(3 : Nat) = 1), if_neg (by decide : ¬(3 : Nat) = 4)]

/-- A resolved UDP port is within the 16-bit range. -/
theorem lookupPortUdp_le (s : GoStr) (p : Nat) (h : lookupPortUdp s = .ok p) : p ≤ 65535 := by
  simp only [lookupPortUdp] at h
  split at h
  case isFalse => exact absurd h (by simp)
  case isTrue =>
    split at h
    case isTrue => exact absurd h (by simp)
    case isFalse =>
      split at h
      case isTrue => exact absurd h (by simp)
      case isFalse hgt =>
        simp only [Except.ok.injEq] at h
        omega

/-- Claim C1 (amended): for every endpoint accepted by the address encoder
(IPv4, IPv6 or domain host and a valid port) and every payload of at most
65535 bytes, `WriteDatagram` writes the 4-byte header, encoded address and
payload, and `ReadDatagram` on those bytes returns the endpoint in its
canonical resolved host:port presentation together with exactly the
payload, consuming the whole stream.  The claim's bound of 65536 is amended
to 65535: a payload of exactly 65536 bytes wraps the 16-bit length field to
zero and does not round-trip (see the counterexample theorem). -/
theorem uot_write_read_roundtrip (raw host portStr : GoStr) (port : Nat)
    (hostBuf payload : List Nat)
    (hsplit : splitHostPort raw = .ok (host, portStr))
    (hport : lookupPortUdp portStr = .ok port)
    (hhost : encodeHost host = .ok hostBuf)
    (hpay : payload.length ≤ 65535) :
    writeDatagram raw payload =
      .ok (be16 (hostBuf.length + 2) ++ be16 payload.length ++
        (hostBuf ++ be16 port) ++ payload) ∧
    readDatagram (be16 (hostBuf.length + 2) ++ be16 payload.length ++
        (hostBuf ++ be16 port) ++ payload) =
      .ok (joinHostPort (canonicalHost host) (natDecimal port), payload, []) := by
  have hple := lookupPortUdp_le _ _ hport
  obtain ⟨hdec, hb257, hb1⟩ :=
    decodeAddress_encodeHost host port hostBuf hhost (by omega)
  have hA : ((hostBuf ++ be16 port) : GoStr).length = hostBuf.length + 2 := by
    simp [List.length_append, length_be16]
  constructor
  · simp only [writeDatagram, encodeAddress, hsplit, hport, hhost]
    try dsimp only
    rw [if_neg (by rw [hA]; simp only [maxUoTPayload]; omega),
      if_neg (by simp only [maxUoTPayload]; omega), hA]
  · have hs : be16 (hostBuf.length + 2) ++ be16 payload.length ++
        (hostBuf ++ be16 port) ++ payload =
        be16 (hostBuf.length + 2) ++ be16 payload.length ++
        ((hostBuf ++ be16 port) ++ payload) := by
      simp [List.append_assoc]
    rw [hs, readDatagram_header _ _ _ (by omega) (by omega) hpay]
    rw [if_pos (by simp only [List.length_append, hA]; omega),
      take_of_append _ _ _ hA, drop_of_append _ _ _ hA, hdec]
    try dsimp only
    rw [if_pos (le_refl _), List.take_length, List.drop_length]

/-- A 65536-byte payload passes the size check of `WriteDatagram`, but its
length wraps to zero in the header, so reading the frame back yields an
empty payload and leaves the 65536 payload bytes unread on the stream. -/
theorem write_read_wrap_65536 (P : List Nat) (hlen : P.length = 65536) :
    writeDatagram [97, 58, 49] P = .ok ([0, 5, 0, 0] ++ [3, 1, 97, 0, 1] ++ P) ∧
    readDatagram ([0, 5, 0, 0] ++ [3, 1, 97, 0, 1] ++ P) = .ok ([97, 58, 49], [], P) := by
  constructor
  · simp only [writeDatagram,
      show encodeAddress [97, 58, 49] = .ok [3, 1, 97, 0, 1] from rfl]
    try dsimp only
    rw [if_neg (by simp only [maxUoTPayload]; decide),
      if_neg (by simp only [maxUoTPayload, hlen]; omega)]
    rw [hlen]
    rfl
  · show readDatagram (be16 5 ++ be16 0 ++ ([3, 1, 97, 0, 1] ++ P)) = _
    rw [readDatagram_header 5 0 _ (by decide) (by decide) (by decide)]
    rw [if_pos (by simp only [List.length_append, hlen]; omega),
      take_of_append [3, 1, 97, 0, 1] P 5 rfl, drop_of_append [3, 1, 97, 0, 1] P 5 rfl,
      show decodeAddress [3, 1, 97, 0, 1] = .ok ([97, 58, 49], []) from rfl]
    try dsimp only
    rw [if_pos (Nat.zero_le _), List.take_zero, List.drop_zero]

/-- Counterexample to claim C1 as stated: at the claimed upper bound
`len(P) = 65536`, writing the frame for address a:1 and payload of 65536
one-bytes succeeds, yet reading it back returns the empty payload — not P —
because the `uint16` cast of the payload length wraps 65536 to 0. -/
theorem writeDatagram_payload_65536_not_roundtrip :
    writeDatagram [97, 58, 49] (List.replicate 65536 1) =
      .ok ([0, 5, 0, 0] ++ [3, 1, 97, 0, 1] ++ List.replicate 65536 1) ∧
    readDatagram ([0, 5, 0, 0] ++ [3, 1, 97, 0, 1] ++ List.replicate 65536 1) =
      .ok ([97, 58, 49], [], List.replicate 65536 1) ∧
    List.replicate 65536 1 ≠ ([] : List Nat) :=
  ⟨(write_read_wrap_65536 _ (List.length_replicate 65536 1)).1,
   (write_read_wrap_65536 _ (List.length_replicate 65536 1)).2,
   fun hc => by
     have hlc := congrArg List.length hc
     simp only [List.length_replicate, List.length_nil] at hlc
     omega⟩

/-- Claim C6: for a host that is not an IP literal, encoding succeeds
exactly up to 255 bytes of domain name — producing tag 3, the length byte,
the name bytes and the big-endian port — while a domain of 256 bytes or
more fails with the domain-too-long error. -/
theorem encodeAddress_domain_boundary (raw host portStr : GoStr) (port : Nat)
    (hsplit : splitHostPort raw = .ok (host, portStr))
    (hport : lookupPortUdp portStr = .ok port)
    (hdom : parseIP host = none) :
    (host.length ≤ 255 → encodeAddress raw = .ok (3 :: host.length :: host ++ be16 port)) ∧
    (256 ≤ host.length → encodeAddress raw = .error .domainTooLong) := by
  constructor
  · intro hle
    have he : encodeHost host = .ok (3 :: host.length % 256 :: host) := by
      simp only [encodeHost, hdom]
      rw [if_neg (by omega)]
    simp only [encodeAddress, hsplit, hport, he]
    try dsimp only
    rw [Nat.mod_eq_of_lt (by omega)]
  · intro h256
    have he : encodeHost host = .error .domainTooLong := by
      simp only [encodeHost, hdom]
      rw [if_pos (by omega)]
    simp only [encodeAddress, hsplit, hport, he]

/-- Witness for C1 (amended) at the domain endpoint a:1 with payload 5. -/
theorem uot_write_read_roundtrip_witness :
    writeDatagram [97, 58, 49] [5] =
      .ok (be16 (([3, 1, 97] : List Nat).length + 2) ++ be16 ([5] : List Nat).length ++
        ([3, 1, 97] ++ be16 1) ++ [5]) ∧
    readDatagram (be16 (([3, 1, 97] : List Nat).length + 2) ++ be16 ([5] : List Nat).length ++
        ([3, 1, 97] ++ be16 1) ++ [5]) =
      .ok (joinHostPort (canonicalHost [97]) (natDecimal 1), [5], []) :=
  uot_write_read_roundtrip [97, 58, 49] [97] [49] 1 [3, 1, 97] [5] rfl rfl rfl (by decide)

set_option maxRecDepth 100000 in
/-- Witness for C6 at domains of exactly 255 and exactly 256 letters a. -/
theorem encodeAddress_domain_boundary_witness :
    encodeAddress (List.replicate 255 97 ++ [58, 49]) =
      .ok (3 :: (List.replicate 255 97).length :: List.replicate 255 97 ++ be16 1) ∧
    encodeAddress (List.replicate 256 97 ++ [58, 49]) = .error .domainTooLong :=
  ⟨(encodeAddress_domain_boundary (List.replicate 255 97 ++ [58, 49])
      (List.replicate 255 97) [49] 1 (by decide) rfl (by decide)).1 (by simp),
   (encodeAddress_domain_boundary (List.replicate 256 97 ++ [58, 49])
      (List.replicate 256 97) [49] 1 (by decide) rfl (by decide)).2 (by simp)⟩
